import Mathlib

/-!
Verification of the incremental extraction engine of tap-groundtruth
(src/tap_groundtruth/streams.py), as a shallow embedding.

Modelling conventions:
* Python `datetime.date` values used for windowing arithmetic are embedded as
  `Int` day numbers (days since an arbitrary epoch); `timedelta(days=n)` is
  `+ n`, `min` and `<=` are the standard ones on `Int`.
* Python `datetime.date` values that get parsed from / rendered to strings are
  embedded as `PyDate` (a year-month-day triple); `date.isoformat()` is
  `renderYMD`, `datetime.isoformat()` is `renderDT`.
* JSON records (Python dicts, insertion ordered) are association lists
  `AList := List (String × JVal)`; `record[k] = v` is `setKey` (update in
  place, append if missing), `record.get(k)` is `getKey`.
* `datetime.datetime.strptime` is modelled after CPython's `_strptime`
  regexes: `%Y` is exactly four digits, `%m`/`%d`/`%H`/`%M`/`%S` are one or
  two digits within their ranges, the whole string must be consumed, and the
  `date` constructor validates the calendar values.
-/

namespace TapGroundTruth

/-- A Python `datetime.date`-style year/month/day triple. -/
structure PyDate where
  y : Nat
  m : Nat
  d : Nat
deriving DecidableEq, Repr

/-- Values appearing in a record dict: JSON strings / integers / null, plus the
Python `date` and `datetime` objects the streams create during coercion
(`datetime` carries its time-of-day fields). -/
inductive JVal where
  | s (v : String)
  | i (v : Int)
  | null
  | d (v : PyDate)
  | dt (v : PyDate) (hh mi ss : Nat)
deriving DecidableEq, Repr

/-- A Python dict as an insertion-ordered association list. -/
abbrev AList := List (String × JVal)

/-- `rec.get(k)`: first value bound to `k`. -/
def getKey (k : String) : AList → Option JVal
  | [] => none
  | (k0, v) :: t => if k0 = k then some v else getKey k t

/-- `rec[k] = v`: update the existing binding in place, else append. -/
def setKey (k : String) (v : JVal) : AList → AList
  | [] => [(k, v)]
  | (k0, v0) :: t => if k0 = k then (k0, v) :: t else (k0, v0) :: setKey k v t

/-- Python truthiness of a record value (`if not account_id: ...`). -/
def truthy : JVal → Bool
  | .s v => v ≠ ""
  | .i v => v ≠ 0
  | .null => false
  | .d _ => true
  | .dt _ _ _ _ => true

/-- Digit character for `n` (callers pass `n < 10`; clamped at `'9'`). -/
def digitChar (n : Nat) : Char :=
  match n with
  | 0 => '0' | 1 => '1' | 2 => '2' | 3 => '3' | 4 => '4'
  | 5 => '5' | 6 => '6' | 7 => '7' | 8 => '8' | _ => '9'

/-- Numeric value of a decimal digit character, if it is one. -/
def digit? (c : Char) : Option Nat :=
  if '0' ≤ c ∧ c ≤ '9' then some (c.toNat - 48) else none

/-- `%04d`-style zero-padded four-digit rendering (years in Python are
`1..9999`, so four digits always suffice). -/
def pad4 (n : Nat) : List Char :=
  [digitChar (n / 1000 % 10), digitChar (n / 100 % 10),
   digitChar (n / 10 % 10), digitChar (n % 10)]

/-- `%02d`-style zero-padded two-digit rendering. -/
def pad2 (n : Nat) : List Char :=
  [digitChar (n / 10 % 10), digitChar (n % 10)]

/-- `date.isoformat()`: `YYYY-MM-DD`. -/
def renderYMD (p : PyDate) : String :=
  String.mk (pad4 p.y ++ '-' :: pad2 p.m ++ '-' :: pad2 p.d)

/-- `datetime.isoformat()` for a whole-second datetime:
`YYYY-MM-DDTHH:MM:SS`. -/
def renderDT (p : PyDate) (hh mi ss : Nat) : String :=
  String.mk (pad4 p.y ++ '-' :: pad2 p.m ++ '-' :: pad2 p.d ++
    'T' :: pad2 hh ++ ':' :: pad2 mi ++ ':' :: pad2 ss)

/-- `%Y`: exactly four digits (CPython regex for the `Y` directive). -/
def parse4 : List Char → Option (Nat × List Char)
  | a :: b :: c :: d :: rest =>
    match digit? a, digit? b, digit? c, digit? d with
    | some x, some y, some z, some w => some (1000 * x + 100 * y + 10 * z + w, rest)
    | _, _, _, _ => none
  | _ => none

/-- One-or-two digit field with a value range, matching CPython's ordered
regex alternation for `%m` / `%d` / `%H` / `%M` / `%S`: prefer the two-digit
reading when its value is within `[lo, hi]`, else the one-digit reading. -/
def parseNum2 (lo hi : Nat) : List Char → Option (Nat × List Char)
  | [] => none
  | a :: rest =>
    match digit? a with
    | none => none
    | some x =>
      match rest with
      | b :: rest2 =>
        match digit? b with
        | some y =>
          if lo ≤ 10 * x + y ∧ 10 * x + y ≤ hi then some (10 * x + y, rest2)
          else if lo ≤ x ∧ x ≤ hi then some (x, rest)
          else none
        | none => if lo ≤ x ∧ x ≤ hi then some (x, rest) else none
      | [] => if lo ≤ x ∧ x ≤ hi then some (x, rest) else none

/-- Expect one literal character. -/
def expectCh (c : Char) : List Char → Option (List Char)
  | [] => none
  | a :: rest => if a = c then some rest else none

/-- `True` iff `y` is a Gregorian leap year (Python `calendar.isleap`). -/
def isLeap (y : Nat) : Bool :=
  y % 4 = 0 && (y % 100 ≠ 0 || y % 400 = 0)

/-- Days in a month as Python's `date` constructor validates them. -/
def daysInMonth (y m : Nat) : Nat :=
  if m = 2 then (if isLeap y then 29 else 28)
  else if m = 4 ∨ m = 6 ∨ m = 9 ∨ m = 11 then 30
  else 31

/-- Validity check performed by Python's `date(y, m, d)` constructor
(`MINYEAR = 1`, `MAXYEAR = 9999`). -/
def validDate (p : PyDate) : Bool :=
  1 ≤ p.y && p.y ≤ 9999 && 1 ≤ p.m && p.m ≤ 12 && 1 ≤ p.d && p.d ≤ daysInMonth p.y p.m

/-- `datetime.strptime(s, "%Y-%m-%d").date()`: the exact format used on
record dates at streams.py:219 — the whole string must be consumed
("unconverted data remains" otherwise), then the calendar is validated. -/
def strptimeYMD (s : String) : Option PyDate := do
  let (yv, r1) ← parse4 s.toList
  let r2 ← expectCh '-' r1
  let (mv, r3) ← parseNum2 1 12 r2
  let r4 ← expectCh '-' r3
  let (dv, r5) ← parseNum2 1 31 r4
  if r5 = [] ∧ validDate ⟨yv, mv, dv⟩ then some ⟨yv, mv, dv⟩ else none

/-- `datetime.strptime(s, "%Y-%m-%dT%H:%M:%SZ").date()`: the first branch of
`CreativeStatsStream._parse_date` (streams.py:111). -/
def strptimeISO (s : String) : Option PyDate := do
  let (yv, r1) ← parse4 s.toList
  let r2 ← expectCh '-' r1
  let (mv, r3) ← parseNum2 1 12 r2
  let r4 ← expectCh '-' r3
  let (dv, r5) ← parseNum2 1 31 r4
  let r6 ← expectCh 'T' r5
  let (_, r7) ← parseNum2 0 23 r6
  let r8 ← expectCh ':' r7
  let (_, r9) ← parseNum2 0 59 r8
  let r10 ← expectCh ':' r9
  let (_, r11) ← parseNum2 0 59 r10
  let r12 ← expectCh 'Z' r11
  if r12 = [] ∧ validDate ⟨yv, mv, dv⟩ then some ⟨yv, mv, dv⟩ else none

/-- `CreativeStatsStream._parse_date` (streams.py:107-114): try the full ISO
8601 form, else fall back to `%Y-%m-%d` on the first ten characters. -/
def parse_date (s : String) : Option PyDate :=
  match strptimeISO s with
  | some p => some p
  | none => strptimeYMD (String.mk (s.toList.take 10))

/-! ### Record normalizers (the per-record transformation before `yield`) -/

/-- Per-record date coercion of `CreativeStatsStream.get_records`
(streams.py:216-226): if `date` is a string, parse it with the strict
`"%Y-%m-%d"` format (a failure aborts); then, if `date` is a Python
`date`/`datetime`, re-render it with `isoformat()`. -/
def creativeNormalize (r : AList) : Option AList :=
  let step1 : Option AList :=
    match getKey "date" r with
    | some (JVal.s v) =>
      match strptimeYMD v with
      | some pd => some (setKey "date" (JVal.d pd) r)
      | none => none
    | _ => some r
  match step1 with
  | none => none
  | some r1 =>
    match getKey "date" r1 with
    | some (JVal.d pd) => some (setKey "date" (JVal.s (renderYMD pd)) r1)
    | some (JVal.dt pd hh mi ss) => some (setKey "date" (JVal.s (renderDT pd hh mi ss)) r1)
    | _ => some r1

/-- Per-record step of `LocationStatsStreamBase.get_records`
(streams.py:462-468): overwrite `date` with
`datetime.combine(current_start, time.min)`, then render it with
`isoformat()`. -/
def locationNormalize (winStart : PyDate) (r : AList) : AList :=
  let r1 := setKey "date" (JVal.dt winStart 0 0 0) r
  match getKey "date" r1 with
  | some (JVal.d pd) => setKey "date" (JVal.s (renderYMD pd)) r1
  | some (JVal.dt pd hh mi ss) => setKey "date" (JVal.s (renderDT pd hh mi ss)) r1
  | _ => r1

/-- Per-record step of `CampaignPublisherStatsStream.get_records`
(streams.py:571-578): overwrite `date` with the window-start midnight
datetime, inject `campaign_id` / `campaign_name`, render `date`. -/
def publisherNormalize (winStart : PyDate) (cid cname : JVal) (r : AList) : AList :=
  let r1 := setKey "date" (JVal.dt winStart 0 0 0) r
  let r2 := setKey "campaign_id" cid r1
  let r3 := setKey "campaign_name" cname r2
  match getKey "date" r3 with
  | some (JVal.d pd) => setKey "date" (JVal.s (renderYMD pd)) r3
  | some (JVal.dt pd hh mi ss) => setKey "date" (JVal.s (renderDT pd hh mi ss)) r3
  | _ => r3

/-- Per-record step of `CampaignDemographicStatsStream.get_records`
(streams.py:690-697): identical shape to the publisher stream's. -/
def demographicNormalize (winStart : PyDate) (cid cname : JVal) (r : AList) : AList :=
  let r1 := setKey "date" (JVal.dt winStart 0 0 0) r
  let r2 := setKey "campaign_id" cid r1
  let r3 := setKey "campaign_name" cname r2
  match getKey "date" r3 with
  | some (JVal.d pd) => setKey "date" (JVal.s (renderYMD pd)) r3
  | some (JVal.dt pd hh mi ss) => setKey "date" (JVal.s (renderDT pd hh mi ss)) r3
  | _ => r3

/-! ### Hierarchy walker: account filter and id-based skipping -/

/-- Python `str(...)` of a record value used for the id comparison and the
`X-GT-ACCOUNT-ID` header. -/
def pyStr : JVal → String
  | .s v => v
  | .i v => toString v
  | .null => "None"
  | .d p => renderYMD p
  | .dt p hh mi ss => renderDT p hh mi ss

/-- ASCII whitespace stripped by Python `str.strip()`. -/
def isSpaceChar (c : Char) : Bool :=
  c = ' ' ∨ c = '\t' ∨ c = '\n' ∨ c = '\r' ∨ c = '\x0b' ∨ c = '\x0c'

/-- Python `str.strip()`: drop leading and trailing whitespace. -/
def pyStrip (s : String) : String :=
  String.mk (((s.toList.dropWhile isSpaceChar).reverse.dropWhile isSpaceChar).reverse)

/-- Split an explicit character list at commas (every comma separates; an
empty input yields one empty field, like Python `"".split(",")`). -/
def splitCommaAux : List Char → List Char → List (List Char)
  | [], acc => [acc.reverse]
  | c :: t, acc =>
    if c = ',' then acc.reverse :: splitCommaAux t []
    else splitCommaAux t (c :: acc)

/-- Python `s.split(",")`. -/
def pySplitComma (s : String) : List String :=
  (splitCommaAux s.toList []).map String.mk

/-- The allow-list set built at streams.py:148-151:
`set(s.strip() for s in account_ids_str.split(",") if s.strip())`, with the
whole config treated as absent when it is `None` or `""` (falsy); only
membership in the set is ever used, so a duplicate-preserving list models
it. -/
def parseAccountIds (cfg : Option String) : List String :=
  match cfg with
  | none => []
  | some s =>
    if s = "" then []
    else ((pySplitComma s).map pyStrip).filter (· ≠ "")

/-- The account loop's filtering (streams.py:152-157): skip accounts whose
`id` is missing or falsy; when the allow-list is non-empty, skip accounts
whose string-cast id is not a member. -/
def walkerAccounts (cfg : Option String) : List AList → List AList
  | [] => []
  | a :: rest =>
    match getKey "id" a with
    | none => walkerAccounts cfg rest
    | some v =>
      if truthy v = false then walkerAccounts cfg rest
      else if parseAccountIds cfg ≠ [] ∧ pyStr v ∉ parseAccountIds cfg then
        walkerAccounts cfg rest
      else a :: walkerAccounts cfg rest

/-- The campaign loop's skipping (streams.py:174-177): campaigns whose `id`
is missing or falsy are skipped. -/
def campaignsKept : List AList → List AList
  | [] => []
  | c :: rest =>
    match getKey "id" c with
    | none => campaignsKept rest
    | some v =>
      if truthy v = false then campaignsKept rest
      else c :: campaignsKept rest

/-! ### Date-range chunker -/

/-- The date-range chunking loop, day numbers as `Int`:
`while current_start <= end: current_end = min(current_start + width - 1,
end); emit [current_start, current_end]; current_start = current_end + 1`.
`fuel` is only a structural-termination bound; `chunks` below supplies
enough of it for the loop to run to completion. -/
def chunkLoop (w : Nat) (e : Int) : Nat → Int → List (Int × Int)
  | 0, _ => []
  | fuel + 1, s =>
    if e < s then []
    else (s, min (s + (w : Int) - 1) e) :: chunkLoop w e fuel (min (s + (w : Int) - 1) e + 1)

/-- The chunking loop run to completion. The source instantiates the width
with the literals 7 (creative stats, streams.py:196-231) and 1 (the
dimensional streams, streams.py:444-469, 551-583, 668-702). -/
def chunks (s e : Int) (w : Nat) : List (Int × Int) :=
  chunkLoop w e (e + 1 - s).toNat s

/-! ### Retrying HTTP fetcher (`get_with_retry`, streams.py:26-47) -/

/-- What `requests.get` produces on one attempt: a response with a status
code, or a transport-level failure (`ConnectionError`, timeout, ...). -/
inductive HttpOutcome where
  | resp (status : Nat)
  | netErr
deriving DecidableEq, Repr

/-- The exception escaping one attempt, or the successful status. All of
these exceptions are `requests.exceptions.RequestException` instances
(`HTTPError` is a subclass), which is exactly what the tenacity predicate
`retry_if_exception_type(RequestException)` checks. -/
inductive FetchErr where
  | http (status : Nat)
  | transport
deriving DecidableEq, Repr

/-- `is_retryable_response` (streams.py:26-28). Defined in the source but
never wired into the retry decorator. -/
def is_retryable_response (status : Nat) : Bool :=
  500 ≤ status || status = 429

/-- One body execution of `get_with_retry` (streams.py:36-47):
`raise_for_status` raises `HTTPError` for any status `>= 400`, and both
branches of the `if` re-raise it unchanged. -/
def attemptOnce (o : HttpOutcome) : Except FetchErr Nat :=
  match o with
  | .netErr => .error .transport
  | .resp st => if 400 ≤ st then .error (.http st) else .ok st

/-- tenacity's loop with `retry_if_exception_type(RequestException)` and
`reraise=True`: every `FetchErr` is a `RequestException`, so every failure
is retried while attempts remain; returns the result and the number of
attempts performed. `remaining` counts retries still allowed after the
current attempt. -/
def retryCall (env : Nat → HttpOutcome) : Nat → Nat → Except FetchErr Nat × Nat
  | i, 0 => (attemptOnce (env i), 1)
  | i, remaining + 1 =>
    match attemptOnce (env i) with
    | .ok v => (.ok v, 1)
    | .error _ =>
      let (r, n) := retryCall env (i + 1) remaining
      (r, n + 1)

/-- `get_with_retry` under `stop_after_attempt(5)`: at most 5 attempts. -/
def getWithRetry (env : Nat → HttpOutcome) : Except FetchErr Nat × Nat :=
  retryCall env 0 4

/-- `wait_exponential(multiplier=1, min=2, max=10)`: the backoff slept before
retry number `k` (k = 1 for the first retry). -/
def backoffWait (k : Nat) : Nat :=
  min 10 (max 2 (2 ^ k))

/-! ### Incremental sync anchors (streams.py:183-195, 432-443) -/

/-- Start-date anchor: `starting_timestamp.date() - timedelta(days=lookback)`
when a bookmark exists, else the parsed configured `start_date` (here already
parsed to a day number). -/
def anchorStart (bookmark : Option Int) (lookbackDays : Int) (cfgStart : Int) : Int :=
  match bookmark with
  | some b => b - lookbackDays
  | none => cfgStart

/-- End-date resolution: the configured `end_date`, else
`datetime.date.today()`. -/
def resolveEnd (cfgEnd : Option Int) (today : Int) : Int :=
  match cfgEnd with
  | some e => e
  | none => today

/-! ### The creative-stats stream run (`CreativeStatsStream.get_records`,
streams.py:127-231), with an explicit network-call trace.

Day numbers are `Int`; the configured `start_date` / `end_date` are carried
already parsed (`_parse_date` is modelled separately above). The environment
supplies the JSON-decoded bodies of the three endpoints. -/

/-- One network request issued by the run, in order. -/
inductive NetCall where
  | accounts
  | campaigns (accountId : String)
  | stats (campaignId : String) (startD endD : Int)
deriving DecidableEq, Repr

/-- Configuration fields consumed by `get_records` (plus the process clock
for the `end_date` default). `lookbackDays` already carries the default 7 of
`int(self.config.get("lookback_days", 7))`. -/
structure Config where
  organizationId : Option String
  startDate : Option Int
  endDate : Option Int
  accountIds : Option String
  lookbackDays : Int
  today : Int

/-- Decoded response bodies: the `accounts` listing, the per-account
`campaigns` listing, and the per-window stats payload. -/
structure Env where
  accountsResp : List AList
  campaignsResp : String → List AList
  statsResp : String → Int → Int → List AList

/-- How a run terminates abnormally: `KeyError` on a missing required config
key, or the `ValueError` from the strict record-date parse. -/
inductive RunErr where
  | missingOrg
  | missingStart
  | dateParse
deriving DecidableEq, Repr

/-- A run's observable outcome: network calls made (in order), records
yielded before any failure, and the failure if one occurred. -/
abbrev RunOut := List NetCall × List AList × Option RunErr

/-- Sequence two run fragments: an error in the first suppresses the
second entirely (generator semantics). -/
def runSeq : RunOut → RunOut → RunOut
  | (t, rs, some e), _ => (t, rs, some e)
  | (t, rs, none), (t2, rs2, e2) => (t ++ t2, rs ++ rs2, e2)

/-- Normalize a window's records in order, stopping at the first parse
failure (records before it were already yielded). -/
def normCreativeList : List AList → List AList × Option RunErr
  | [] => ([], none)
  | r :: rest =>
    match creativeNormalize r with
    | none => ([], some .dateParse)
    | some r1 =>
      let (o, e) := normCreativeList rest
      (r1 :: o, e)

/-- The per-window loop body for one campaign: fetch the stats for each
window and yield its normalized records. -/
def creativeWindows (env : Env) (cid : String) : List (Int × Int) → RunOut
  | [] => ([], [], none)
  | (ws, we) :: rest =>
    let (o, err) := normCreativeList (env.statsResp cid ws we)
    runSeq ([NetCall.stats cid ws we], o, err) (creativeWindows env cid rest)

/-- The per-campaign body (streams.py:174-231): skip falsy ids, compute the
anchor dates (a `KeyError` here if no bookmark and no configured
`start_date`), chunk, and walk the windows. -/
def creativeCampaign (cfg : Config) (bookmark : Option Int) (env : Env) (c : AList) : RunOut :=
  match getKey "id" c with
  | none => ([], [], none)
  | some v =>
    if truthy v = false then ([], [], none)
    else
      match bookmark with
      | some b =>
        creativeWindows env (pyStr v)
          (chunks (b - cfg.lookbackDays) (resolveEnd cfg.endDate cfg.today) 7)
      | none =>
        match cfg.startDate with
        | none => ([], [], some .missingStart)
        | some sd =>
          creativeWindows env (pyStr v)
            (chunks sd (resolveEnd cfg.endDate cfg.today) 7)

/-- Fold the campaign loop. -/
def creativeCampaignList (cfg : Config) (bookmark : Option Int) (env : Env) :
    List AList → RunOut
  | [] => ([], [], none)
  | c :: rest =>
    runSeq (creativeCampaign cfg bookmark env c)
      (creativeCampaignList cfg bookmark env rest)

/-- The per-account body (streams.py:152-173): skip filtered/falsy accounts,
fetch the account's campaigns, run the campaign loop. -/
def creativeAccount (cfg : Config) (bookmark : Option Int) (env : Env) (a : AList) : RunOut :=
  match getKey "id" a with
  | none => ([], [], none)
  | some v =>
    if truthy v = false then ([], [], none)
    else if parseAccountIds cfg.accountIds ≠ [] ∧ pyStr v ∉ parseAccountIds cfg.accountIds then
      ([], [], none)
    else
      runSeq ([NetCall.campaigns (pyStr v)], [], none)
        (creativeCampaignList cfg bookmark env (env.campaignsResp (pyStr v)))

/-- Fold the account loop. -/
def creativeAccountList (cfg : Config) (bookmark : Option Int) (env : Env) :
    List AList → RunOut
  | [] => ([], [], none)
  | a :: rest =>
    runSeq (creativeAccount cfg bookmark env a)
      (creativeAccountList cfg bookmark env rest)

/-- `CreativeStatsStream.get_records`: `self.config["organization_id"]` is
read first (a `KeyError` before any request), then the accounts listing is
fetched and the account loop runs. -/
def creativeRun (cfg : Config) (bookmark : Option Int) (env : Env) : RunOut :=
  match cfg.organizationId with
  | none => ([], [], some .missingOrg)
  | some _ =>
    runSeq ([NetCall.accounts], [], none)
      (creativeAccountList cfg bookmark env env.accountsResp)

/-! ### Lemmas about the chunker -/

lemma chunkLoop_of_lt (w : Nat) (e s : Int) (h : e < s) :
    ∀ f, chunkLoop w e f s = []
  | 0 => rfl
  | _ + 1 => by rw [chunkLoop]; simp [h]

lemma chunks_nil (s e : Int) (w : Nat) (h : e < s) : chunks s e w = [] := by
  rw [chunks]
  exact chunkLoop_of_lt w e s h _

lemma chunkLoop_fuel (w : Nat) (hw : w ≠ 0) (e : Int) :
    ∀ f s, (e + 1 - s).toNat ≤ f →
      chunkLoop w e f s = chunkLoop w e (e + 1 - s).toNat s := by
  intro f
  induction f using Nat.strong_induction_on with
  | _ f ih =>
    intro s hs
    match f with
    | 0 =>
      have h0 : (e + 1 - s).toNat = 0 := by omega
      rw [h0]
    | f' + 1 =>
      by_cases hlt : e < s
      · rw [chunkLoop_of_lt w e s hlt, chunkLoop_of_lt w e s hlt]
      · push_neg at hlt
        have hw1 : (1 : Int) ≤ (w : Int) := by exact_mod_cast Nat.one_le_iff_ne_zero.mpr hw
        have hmin : s ≤ min (s + (w : Int) - 1) e := le_min (by omega) hlt
        have hom : (e + 1 - s).toNat = (e + 1 - (s + 1)).toNat + 1 := by omega
        have hne : ¬ e < s := by omega
        have hfe : (e + 1 - (min (s + (w : Int) - 1) e + 1)).toNat ≤ f' := by omega
        have hm : (e + 1 - (min (s + (w : Int) - 1) e + 1)).toNat ≤ (e + 1 - (s + 1)).toNat := by
          omega
        rw [hom, chunkLoop, chunkLoop, if_neg hne, if_neg hne]
        congr 1
        rw [ih f' (by omega) _ hfe, ih ((e + 1 - (s + 1)).toNat) (by omega) _ hm]

lemma chunks_cons (s e : Int) (w : Nat) (hw : w ≠ 0) (hse : s ≤ e) :
    chunks s e w =
      (s, min (s + (w : Int) - 1) e) :: chunks (min (s + (w : Int) - 1) e + 1) e w := by
  have hom : (e + 1 - s).toNat = (e + 1 - (s + 1)).toNat + 1 := by omega
  have hw1 : (1 : Int) ≤ (w : Int) := by exact_mod_cast Nat.one_le_iff_ne_zero.mpr hw
  have hmin : s ≤ min (s + (w : Int) - 1) e := le_min (by omega) hse
  simp only [chunks]
  rw [hom, chunkLoop, if_neg (by omega : ¬ e < s)]
  congr 1
  exact chunkLoop_fuel w hw e _ _ (by omega)

/-- Custom induction along the chunking loop's control flow. -/
lemma chunks_induction (w : Nat) (hw : w ≠ 0) (e : Int) {motive : Int → Prop}
    (nil : ∀ s, e < s → motive s)
    (cons : ∀ s, s ≤ e → motive (min (s + (w : Int) - 1) e + 1) → motive s) :
    ∀ s, motive s := by
  intro s
  generalize hn : (e + 1 - s).toNat = n
  induction n using Nat.strong_induction_on generalizing s with
  | _ n ih =>
    by_cases h : e < s
    · exact nil s h
    · push_neg at h
      have hw1 : (1 : Int) ≤ (w : Int) := by exact_mod_cast Nat.one_le_iff_ne_zero.mpr hw
      have hmin : s ≤ min (s + (w : Int) - 1) e := le_min (by omega) h
      exact cons s h (ih ((e + 1 - (min (s + (w : Int) - 1) e + 1)).toNat) (by omega) _ rfl)

lemma chunks_mem (s e : Int) (w : Nat) (hw : w ≠ 0) :
    ∀ p ∈ chunks s e w, s ≤ p.1 ∧ p.1 ≤ p.2 ∧ p.2 ≤ e ∧ p.2 + 1 ≤ p.1 + w := by
  have hw1 : (1 : Int) ≤ (w : Int) := by exact_mod_cast Nat.one_le_iff_ne_zero.mpr hw
  induction s using chunks_induction w hw e with
  | nil s h => rw [chunks_nil s e w h]; simp
  | cons s h ih =>
    rw [chunks_cons s e w hw h]
    intro p hp
    rcases List.mem_cons.mp hp with h1 | h1
    · subst h1
      refine ⟨le_refl _, ?_, ?_, ?_⟩ <;> simp <;> omega
    · have := ih p h1
      omega

lemma chunks_ne_nil (s e : Int) (w : Nat) (hw : w ≠ 0) (hse : s ≤ e) :
    chunks s e w ≠ [] := by
  rw [chunks_cons s e w hw hse]
  exact List.cons_ne_nil _ _

lemma chunks_head (s e : Int) (w : Nat) (hw : w ≠ 0) (hse : s ≤ e) :
    ((chunks s e w).head?).map Prod.fst = some s := by
  rw [chunks_cons s e w hw hse]
  rfl

lemma chunks_last (s e : Int) (w : Nat) (hw : w ≠ 0) (hse : s ≤ e) :
    ((chunks s e w).getLast?).map Prod.snd = some e := by
  have hw1 : (1 : Int) ≤ (w : Int) := by exact_mod_cast Nat.one_le_iff_ne_zero.mpr hw
  induction s using chunks_induction w hw e with
  | nil s h => omega
  | cons s h ih =>
    rw [chunks_cons s e w hw h]
    by_cases hlast : min (s + (w : Int) - 1) e = e
    · have h2 : chunks (min (s + (w : Int) - 1) e + 1) e w = [] :=
        chunks_nil _ e w (by omega)
      rw [h2]
      simp [hlast]
    · have hse2 : min (s + (w : Int) - 1) e + 1 ≤ e := by
        have : min (s + (w : Int) - 1) e ≤ e := min_le_right _ _
        omega
      have htail := ih hse2
      obtain ⟨q, hq, hq2⟩ := Option.map_eq_some'.mp htail
      rw [List.getLast?_cons, hq]
      simp [hq2]

lemma chunks_chain (s e : Int) (w : Nat) (hw : w ≠ 0) :
    List.Chain' (fun p q => q.1 = p.2 + 1) (chunks s e w) := by
  induction s using chunks_induction w hw e with
  | nil s h => rw [chunks_nil s e w h]; simp
  | cons s h ih =>
    rw [chunks_cons s e w hw h]
    refine List.chain'_cons'.mpr ⟨?_, ih⟩
    intro q hq
    by_cases hse2 : min (s + (w : Int) - 1) e + 1 ≤ e
    · rw [chunks_cons _ e w hw hse2] at hq
      simp only [List.head?_cons, Option.mem_def, Option.some.injEq] at hq
      rw [← hq]
    · rw [chunks_nil _ _ _ (by omega)] at hq
      simp at hq

lemma chunks_pairwise (s e : Int) (w : Nat) (hw : w ≠ 0) :
    List.Pairwise (fun p q => p.2 < q.1) (chunks s e w) := by
  induction s using chunks_induction w hw e with
  | nil s h => rw [chunks_nil s e w h]; simp
  | cons s h ih =>
    rw [chunks_cons s e w hw h]
    refine List.pairwise_cons.mpr ⟨?_, ih⟩
    intro q hq
    have := chunks_mem _ e w hw q hq
    simp only
    omega

lemma chunks_cover_day (s e : Int) (w : Nat) (hw : w ≠ 0) :
    ∀ d : Int, s ≤ d → d ≤ e → ∃ p ∈ chunks s e w, p.1 ≤ d ∧ d ≤ p.2 := by
  induction s using chunks_induction w hw e with
  | nil s h => intro d hd1 hd2; omega
  | cons s h ih =>
    intro d hd1 hd2
    rw [chunks_cons s e w hw h]
    by_cases hin : d ≤ min (s + (w : Int) - 1) e
    · exact ⟨(s, min (s + (w : Int) - 1) e), List.mem_cons_self _ _, hd1, hin⟩
    · obtain ⟨p, hp, hp1, hp2⟩ := ih d (by omega) hd2
      exact ⟨p, List.mem_cons_of_mem _ hp, hp1, hp2⟩

/-- C1: for `start <= end` the chunking loop of `get_records` (instantiated
at width 7 by the creative-stats stream and width 1 by the dimensional
streams) produces a finite window list that starts at `start`, ends at
`end`, is contiguous (each window starts one day after the previous one
ends) and non-overlapping, stays inside `[start, end]` with every window
nonempty and at most `width` days wide (the width-1 instance emits exactly
one-day windows), and covers every day of `[start, end]`; for
`start > end` it is empty, so nothing is fetched and no error is raised. -/
theorem chunking_windows_spec (s e : Int) (w : Nat) (hw : 1 ≤ w) :
    (e < s → chunks s e w = [])
    ∧ (s ≤ e → chunks s e w ≠ []
        ∧ ((chunks s e w).head?).map Prod.fst = some s
        ∧ ((chunks s e w).getLast?).map Prod.snd = some e)
    ∧ List.Chain' (fun p q => q.1 = p.2 + 1) (chunks s e w)
    ∧ List.Pairwise (fun p q => p.2 < q.1) (chunks s e w)
    ∧ (∀ p ∈ chunks s e w, s ≤ p.1 ∧ p.1 ≤ p.2 ∧ p.2 ≤ e ∧ p.2 + 1 ≤ p.1 + w)
    ∧ (∀ d : Int, s ≤ d → d ≤ e → ∃ p ∈ chunks s e w, p.1 ≤ d ∧ d ≤ p.2)
    ∧ (∀ p ∈ chunks s e 1, p.1 = p.2) := by
  have hw0 : w ≠ 0 := by omega
  refine ⟨fun h => chunks_nil s e w h,
    fun h => ⟨chunks_ne_nil s e w hw0 h, chunks_head s e w hw0 h, chunks_last s e w hw0 h⟩,
    chunks_chain s e w hw0, chunks_pairwise s e w hw0, chunks_mem s e w hw0,
    chunks_cover_day s e w hw0, ?_⟩
  intro p hp
  have := chunks_mem s e 1 (by omega) p hp
  omega

/-- Witness for C1 at `start = 0`, `end = 9`, `width = 7`. -/
theorem chunking_windows_spec_witness :
    (((9 : Int) < 0 → chunks 0 9 7 = [])
    ∧ ((0 : Int) ≤ 9 → chunks 0 9 7 ≠ []
        ∧ ((chunks 0 9 7).head?).map Prod.fst = some 0
        ∧ ((chunks 0 9 7).getLast?).map Prod.snd = some 9)
    ∧ List.Chain' (fun p q => q.1 = p.2 + 1) (chunks 0 9 7)
    ∧ List.Pairwise (fun p q => p.2 < q.1) (chunks 0 9 7)
    ∧ (∀ p ∈ chunks 0 9 7, 0 ≤ p.1 ∧ p.1 ≤ p.2 ∧ p.2 ≤ 9 ∧ p.2 + 1 ≤ p.1 + 7)
    ∧ (∀ d : Int, 0 ≤ d → d ≤ 9 → ∃ p ∈ chunks 0 9 7, p.1 ≤ d ∧ d ≤ p.2)
    ∧ (∀ p ∈ chunks 0 9 1, p.1 = p.2))
    ∧ chunks 0 9 7 = [(0, 6), (7, 9)]
    ∧ chunks 9 0 7 = [] := by
  exact ⟨chunking_windows_spec 0 9 7 (by decide), by decide, by decide⟩

/-! ### C2: retry behavior on a 404 -/

/-- C2 (code bug evidence): the claim says a 404 fails after exactly 1
attempt with no retry, and the source's own `is_retryable_response` helper
classifies 404 as non-retryable — but that helper is never wired into the
decorator: the tenacity predicate retries every
`requests.exceptions.RequestException`, and the `HTTPError` raised for a 404
is one, so `get_with_retry` performs all 5 attempts (with backoff sleeps of
2, 4, 8 and 10 time-units between them) before re-raising the 404 error. -/
theorem retry_404_all_attempts :
    getWithRetry (fun _ => HttpOutcome.resp 404) = (Except.error (FetchErr.http 404), 5)
    ∧ (getWithRetry (fun _ => HttpOutcome.resp 404)).2 ≠ 1
    ∧ is_retryable_response 404 = false
    ∧ [backoffWait 1, backoffWait 2, backoffWait 3, backoffWait 4] = [2, 4, 8, 10] := by
  refine ⟨rfl, by simp [getWithRetry, retryCall, attemptOnce], by decide, by norm_num [backoffWait]⟩

/-! ### C3: anchor start and end dates -/

/-- C3 (counterexample): with bookmark day 10, `lookback_days = 3` and
configured start day 9, the code's anchor is `10 - 3 = 7`, not
`max(10 - 3, 9) = 9` as the claim states — the configured `start_date` is
never consulted once a bookmark exists. -/
theorem anchor_no_max_cex :
    anchorStart (some 10) 3 9 ≠ max (10 - 3 : Int) 9 := by
  decide

/-- C3 (amended): when a bookmark exists the anchor start is
`bookmark - lookback_days`, with no clamping to the configured `start_date`;
when no bookmark exists it is the configured `start_date`; the end date is
the configured `end_date`, or today when unset. At run level: with bookmark
day 10, lookback 3, configured start 9 and end 8, the creative stream's only
stats request is for the window `[7, 8]` (anchored below the configured
start). -/
theorem anchor_start_end_amended :
    (∀ b l c : Int, anchorStart (some b) l c = b - l)
    ∧ (∀ l c : Int, anchorStart none l c = c)
    ∧ (∀ e t : Int, resolveEnd (some e) t = e)
    ∧ (∀ t : Int, resolveEnd none t = t)
    ∧ (creativeRun ⟨some "org", some 9, some 8, none, 3, 8⟩ (some 10)
        ⟨[[("id", JVal.i 10)]], fun _ => [[("id", JVal.i 100)]], fun _ _ _ => []⟩).1
      = [NetCall.accounts, NetCall.campaigns "10", NetCall.stats "100" 7 8] := by
  refine ⟨fun b l c => rfl, fun l c => rfl, fun e t => rfl, fun t => rfl, by decide⟩

/-! ### Dictionary lemmas -/

/-- Membership of a key. -/
def hasKey (k : String) : AList → Bool
  | [] => false
  | (k0, _) :: t => k0 = k || hasKey k t

lemma getKey_setKey_self (k : String) (v : JVal) (r : AList) :
    getKey k (setKey k v r) = some v := by
  induction r with
  | nil => simp [setKey, getKey]
  | cons h t ih =>
    obtain ⟨k0, v0⟩ := h
    by_cases hk : k0 = k <;> simp [setKey, getKey, hk, ih]

lemma getKey_setKey_ne (k k2 : String) (v : JVal) (r : AList) (h : k2 ≠ k) :
    getKey k (setKey k2 v r) = getKey k r := by
  induction r with
  | nil => simp [setKey, getKey, h]
  | cons p t ih =>
    obtain ⟨k0, v0⟩ := p
    by_cases hk : k0 = k2
    · subst hk
      simp [setKey, getKey, h]
    · simp [setKey, getKey, hk, ih]

lemma setKey_absorb (k : String) (a b : JVal) (r : AList) :
    setKey k a (setKey k b r) = setKey k a r := by
  induction r with
  | nil => simp [setKey]
  | cons p t ih =>
    obtain ⟨k0, v0⟩ := p
    by_cases hk : k0 = k <;> simp [setKey, hk, ih]

lemma hasKey_setKey (k k2 : String) (v : JVal) (r : AList) (h : hasKey k r = true) :
    hasKey k (setKey k2 v r) = true := by
  induction r with
  | nil => simp [hasKey] at h
  | cons p t ih =>
    obtain ⟨k0, v0⟩ := p
    by_cases hk : k0 = k2
    · simp only [setKey, if_pos hk, hasKey] at h ⊢
      exact h
    · simp only [setKey, if_neg hk, hasKey, Bool.or_eq_true] at h ⊢
      rcases h with h | h
      · exact Or.inl h
      · exact Or.inr (ih h)

lemma hasKey_setKey_self (k : String) (v : JVal) (r : AList) :
    hasKey k (setKey k v r) = true := by
  induction r with
  | nil => simp [setKey, hasKey]
  | cons p t ih =>
    obtain ⟨k0, v0⟩ := p
    by_cases hk : k0 = k <;> simp [setKey, hasKey, hk, ih]

lemma setKey_comm_left (k1 k2 : String) (v1 v2 : JVal) (r : AList)
    (h12 : k1 ≠ k2) (h : hasKey k1 r = true) :
    setKey k1 v1 (setKey k2 v2 r) = setKey k2 v2 (setKey k1 v1 r) := by
  have h21 : k2 ≠ k1 := Ne.symm h12
  induction r with
  | nil => simp [hasKey] at h
  | cons p t ih =>
    obtain ⟨k0, v0⟩ := p
    simp only [hasKey, Bool.or_eq_true, decide_eq_true_eq] at h
    by_cases h1 : k0 = k1
    · subst h1
      simp [setKey, h12]
    · by_cases h2 : k0 = k2
      · subst h2
        simp [setKey, h12, h21]
      · rcases h with h | h
        · exact absurd h h1
        · simp [setKey, h1, h2, ih h]

lemma getKey_mem (k : String) (v : JVal) (r : AList) (h : getKey k r = some v) :
    (k, v) ∈ r := by
  induction r with
  | nil => simp [getKey] at h
  | cons p t ih =>
    obtain ⟨k0, v0⟩ := p
    by_cases hk : k0 = k
    · subst hk
      simp [getKey] at h
      simp [h]
    · simp [getKey, hk] at h
      exact List.mem_cons_of_mem _ (ih h)

/-! ### Parse / render roundtrip -/

lemma digit?_digitChar (n : Nat) (h : n < 10) : digit? (digitChar n) = some n := by
  interval_cases n <;> decide

lemma parse4_pad4 (y : Nat) (h : y ≤ 9999) (rest : List Char) :
    parse4 (pad4 y ++ rest) = some (y, rest) := by
  have h1 : y / 1000 % 10 < 10 := Nat.mod_lt _ (by norm_num)
  have h2 : y / 100 % 10 < 10 := Nat.mod_lt _ (by norm_num)
  have h3 : y / 10 % 10 < 10 := Nat.mod_lt _ (by norm_num)
  have h4 : y % 10 < 10 := Nat.mod_lt _ (by norm_num)
  simp only [pad4, List.cons_append, List.nil_append, parse4,
    digit?_digitChar _ h1, digit?_digitChar _ h2, digit?_digitChar _ h3, digit?_digitChar _ h4]
  congr 2
  omega

lemma parseNum2_pad2 (lo hi v : Nat) (h1 : lo ≤ v) (h2 : v ≤ hi) (h3 : hi ≤ 99)
    (rest : List Char) :
    parseNum2 lo hi (pad2 v ++ rest) = some (v, rest) := by
  have ha : v / 10 % 10 < 10 := Nat.mod_lt _ (by norm_num)
  have hb : v % 10 < 10 := Nat.mod_lt _ (by norm_num)
  have hv : 10 * (v / 10 % 10) + v % 10 = v := by omega
  simp only [pad2, List.cons_append, List.nil_append, parseNum2,
    digit?_digitChar _ ha, digit?_digitChar _ hb, hv]
  rw [if_pos ⟨h1, h2⟩]

lemma daysInMonth_le (y m : Nat) : daysInMonth y m ≤ 31 := by
  unfold daysInMonth
  split
  · split <;> omega
  · split <;> omega

lemma strptimeYMD_renderYMD (p : PyDate) (h : validDate p = true) :
    strptimeYMD (renderYMD p) = some p := by
  obtain ⟨y, m, d⟩ := p
  have hv := h
  simp only [validDate, Bool.and_eq_true, decide_eq_true_eq] at h
  obtain ⟨⟨⟨⟨⟨hy1, hy2⟩, hm1⟩, hm2⟩, hd1⟩, hd2⟩ := h
  have e0 : parse4 (renderYMD ⟨y, m, d⟩).data = some (y, '-' :: (pad2 m ++ '-' :: pad2 d)) := by
    show parse4 (pad4 y ++ '-' :: (pad2 m ++ '-' :: pad2 d)) = _
    exact parse4_pad4 y hy2 _
  have e1 : parseNum2 1 12 (pad2 m ++ '-' :: pad2 d) = some (m, '-' :: pad2 d) :=
    parseNum2_pad2 1 12 m hm1 hm2 (by norm_num) _
  have e2 : parseNum2 1 31 (pad2 d) = some (d, []) := by
    have h31 := parseNum2_pad2 1 31 d hd1 (le_trans hd2 (daysInMonth_le y m)) (by norm_num) []
    simpa using h31
  simp [strptimeYMD, e0, e1, e2, expectCh, hv]

lemma strptimeYMD_valid (s : String) (p : PyDate) (h : strptimeYMD s = some p) :
    validDate p = true := by
  rw [strptimeYMD] at h
  simp only [Option.bind_eq_bind] at h
  rcases h1 : parse4 s.toList with _ | ⟨yv, r1⟩
  · rw [h1] at h
    simp at h
  rw [h1] at h
  simp only [Option.some_bind] at h
  rcases h2 : expectCh '-' r1 with _ | r2
  · rw [h2] at h
    simp at h
  rw [h2] at h
  simp only [Option.some_bind] at h
  rcases h3 : parseNum2 1 12 r2 with _ | ⟨mv, r3⟩
  · rw [h3] at h
    simp at h
  rw [h3] at h
  simp only [Option.some_bind] at h
  rcases h4 : expectCh '-' r3 with _ | r4
  · rw [h4] at h
    simp at h
  rw [h4] at h
  simp only [Option.some_bind] at h
  rcases h5 : parseNum2 1 31 r4 with _ | ⟨dv, r5⟩
  · rw [h5] at h
    simp at h
  rw [h5] at h
  simp only [Option.some_bind] at h
  by_cases h6 : r5 = [] ∧ validDate ⟨yv, mv, dv⟩ = true
  · rw [if_pos ⟨h6.1, by exact_mod_cast h6.2⟩] at h
    cases h
    exact h6.2
  · rw [if_neg (by simpa using h6)] at h
    simp at h

/-! ### Characterizations of the normalizers -/

lemma locationNormalize_eq (d : PyDate) (r : AList) :
    locationNormalize d r = setKey "date" (JVal.s (renderDT d 0 0 0)) r := by
  simp only [locationNormalize, getKey_setKey_self, setKey_absorb]

lemma publisherNormalize_eq (d : PyDate) (cid cname : JVal) (r : AList) :
    publisherNormalize d cid cname r =
      setKey "date" (JVal.s (renderDT d 0 0 0))
        (setKey "campaign_name" cname
          (setKey "campaign_id" cid (setKey "date" (JVal.dt d 0 0 0) r))) := by
  simp only [publisherNormalize,
    getKey_setKey_ne "date" "campaign_name" _ _ (by decide),
    getKey_setKey_ne "date" "campaign_id" _ _ (by decide),
    getKey_setKey_self]

lemma demographicNormalize_eq (d : PyDate) (cid cname : JVal) (r : AList) :
    demographicNormalize d cid cname r =
      setKey "date" (JVal.s (renderDT d 0 0 0))
        (setKey "campaign_name" cname
          (setKey "campaign_id" cid (setKey "date" (JVal.dt d 0 0 0) r))) := by
  simp only [demographicNormalize,
    getKey_setKey_ne "date" "campaign_name" _ _ (by decide),
    getKey_setKey_ne "date" "campaign_id" _ _ (by decide),
    getKey_setKey_self]

/-- Is a record value a plain JSON value (as produced by `response.json()`)?
Python `date`/`datetime` objects cannot occur in decoded JSON. -/
def jsonVal : JVal → Bool
  | .s _ => true
  | .i _ => true
  | .null => true
  | .d _ => false
  | .dt _ _ _ _ => false

/-- A raw record straight from `response.json()`. -/
def jsonRec (r : AList) : Bool :=
  r.all (fun p => jsonVal p.2)

lemma creativeNormalize_string_date (r : AList) (str : String)
    (hd : getKey "date" r = some (JVal.s str)) :
    creativeNormalize r =
      match strptimeYMD str with
      | some pd => some (setKey "date" (JVal.s (renderYMD pd)) r)
      | none => none := by
  simp only [creativeNormalize, hd]
  cases hp : strptimeYMD str with
  | none => simp
  | some pd => simp [getKey_setKey_self, setKey_absorb]

lemma creativeNormalize_idem (r : AList) (hr : jsonRec r = true) :
    (creativeNormalize r).bind creativeNormalize = creativeNormalize r := by
  cases hd : getKey "date" r with
  | none =>
    have h1 : creativeNormalize r = some r := by
      simp only [creativeNormalize, hd]
    rw [h1, Option.some_bind]
    exact h1
  | some v =>
    have hv : jsonVal v = true := by
      have hm := getKey_mem "date" v r hd
      have := List.all_eq_true.mp hr _ hm
      simpa using this
    cases v with
    | s str =>
      cases hp : strptimeYMD str with
      | none =>
        have h1 : creativeNormalize r = none := by
          rw [creativeNormalize_string_date r str hd, hp]
        rw [h1]
        rfl
      | some pd =>
        have hvd := strptimeYMD_valid str pd hp
        have h1 : creativeNormalize r = some (setKey "date" (JVal.s (renderYMD pd)) r) := by
          rw [creativeNormalize_string_date r str hd, hp]
        rw [h1, Option.some_bind]
        rw [creativeNormalize_string_date _ (renderYMD pd) (getKey_setKey_self _ _ _),
          strptimeYMD_renderYMD pd hvd]
        simp [setKey_absorb]
    | i n =>
      have h1 : creativeNormalize r = some r := by
        simp only [creativeNormalize, hd]
      rw [h1, Option.some_bind]
      exact h1
    | null =>
      have h1 : creativeNormalize r = some r := by
        simp only [creativeNormalize, hd]
      rw [h1, Option.some_bind]
      exact h1
    | d pd => simp [jsonVal] at hv
    | dt pd hh mi ss => simp [jsonVal] at hv

lemma setKey_of_getKey (k : String) (v : JVal) (r : AList) (h : getKey k r = some v) :
    setKey k v r = r := by
  induction r with
  | nil => simp [getKey] at h
  | cons p t ih =>
    obtain ⟨k0, v0⟩ := p
    by_cases hk : k0 = k
    · subst hk
      have h2 : v0 = v := by simpa [getKey] using h
      subst h2
      simp [setKey]
    · simp only [getKey, if_neg hk] at h
      simp [setKey, hk, ih h]

lemma demographicNormalize_idem (d : PyDate) (cid cname : JVal) (r : AList) :
    demographicNormalize d cid cname (demographicNormalize d cid cname r)
      = demographicNormalize d cid cname r := by
  have hD := demographicNormalize_eq d cid cname r
  rw [demographicNormalize_eq d cid cname (demographicNormalize d cid cname r)]
  rw [setKey_of_getKey "campaign_id" cid _ (by
    rw [getKey_setKey_ne _ "date" _ _ (by decide), hD,
      getKey_setKey_ne _ "date" _ _ (by decide),
      getKey_setKey_ne _ "campaign_name" _ _ (by decide)]
    exact getKey_setKey_self _ _ _)]
  rw [setKey_of_getKey "campaign_name" cname _ (by
    rw [getKey_setKey_ne _ "date" _ _ (by decide), hD,
      getKey_setKey_ne _ "date" _ _ (by decide)]
    exact getKey_setKey_self _ _ _)]
  rw [setKey_absorb]
  rw [setKey_of_getKey "date" _ _ (by
    rw [hD]
    exact getKey_setKey_self _ _ _)]

lemma renderDT_midnight (p : PyDate) :
    renderDT p 0 0 0 = renderYMD p ++ "T00:00:00" := by
  apply String.ext
  rw [String.data_append]
  show pad4 p.y ++ '-' :: pad2 p.m ++ '-' :: pad2 p.d ++
      'T' :: pad2 0 ++ ':' :: pad2 0 ++ ':' :: pad2 0
    = (pad4 p.y ++ '-' :: pad2 p.m ++ '-' :: pad2 p.d) ++ ['T', '0', '0', ':', '0', '0', ':', '0', '0']
  have h0 : pad2 0 = ['0', '0'] := rfl
  rw [h0]
  simp

/-! ### C7: idempotence of the per-record normalization step -/

/-- C7: the per-record normalization is idempotent. For the creative stream
(on raw JSON records, which is all `response.json()` can produce) a second
pass re-parses the rendered `YYYY-MM-DD` string to the same date and
re-renders it; stated in the `Option` monad so a parse failure on the first
pass is also a (vacuous) fixed point. For the demographic stream the second
pass overwrites `date` / `campaign_id` / `campaign_name` with the same
context values. -/
theorem normalize_idempotent :
    (∀ r : AList, jsonRec r = true →
      (creativeNormalize r).bind creativeNormalize = creativeNormalize r)
    ∧ (∀ (d : PyDate) (cid cname : JVal) (r : AList),
        demographicNormalize d cid cname (demographicNormalize d cid cname r)
          = demographicNormalize d cid cname r) :=
  ⟨creativeNormalize_idem, demographicNormalize_idem⟩

/-- Witness for C7 on a concrete raw record and context. -/
theorem normalize_idempotent_witness :
    jsonRec [("date", JVal.s "2024-01-01"), ("impressions", JVal.i 5)] = true
    ∧ (creativeNormalize [("date", JVal.s "2024-01-01"), ("impressions", JVal.i 5)]).bind
        creativeNormalize
      = creativeNormalize [("date", JVal.s "2024-01-01"), ("impressions", JVal.i 5)]
    ∧ demographicNormalize ⟨2024, 1, 1⟩ (JVal.i 100) (JVal.s "camp")
        (demographicNormalize ⟨2024, 1, 1⟩ (JVal.i 100) (JVal.s "camp")
          [("impressions", JVal.i 5)])
      = demographicNormalize ⟨2024, 1, 1⟩ (JVal.i 100) (JVal.s "camp")
          [("impressions", JVal.i 5)] :=
  ⟨by decide, normalize_idempotent.1 _ (by decide),
    normalize_idempotent.2 ⟨2024, 1, 1⟩ (JVal.i 100) (JVal.s "camp") [("impressions", JVal.i 5)]⟩

/-! ### C10: the dimensional streams' `date` comes only from the window -/

/-- C10: for the location, publisher and demographic streams the emitted
`date` is computed solely from the current window's start day, rendered via
`datetime.isoformat()`: two upstream records that differ only in their
`date` value normalize to identical records, and the output `date` is
always the window-start midnight datetime string. -/
theorem date_from_window_only :
    (∀ (d : PyDate) (r : AList) (v1 v2 : JVal),
      locationNormalize d (setKey "date" v1 r) = locationNormalize d (setKey "date" v2 r))
    ∧ (∀ (d : PyDate) (cid cname : JVal) (r : AList) (v1 v2 : JVal),
      publisherNormalize d cid cname (setKey "date" v1 r)
        = publisherNormalize d cid cname (setKey "date" v2 r))
    ∧ (∀ (d : PyDate) (cid cname : JVal) (r : AList) (v1 v2 : JVal),
      demographicNormalize d cid cname (setKey "date" v1 r)
        = demographicNormalize d cid cname (setKey "date" v2 r))
    ∧ (∀ (d : PyDate) (r : AList),
      getKey "date" (locationNormalize d r) = some (JVal.s (renderDT d 0 0 0)))
    ∧ (∀ (d : PyDate) (cid cname : JVal) (r : AList),
      getKey "date" (publisherNormalize d cid cname r) = some (JVal.s (renderDT d 0 0 0)))
    ∧ (∀ (d : PyDate) (cid cname : JVal) (r : AList),
      getKey "date" (demographicNormalize d cid cname r) = some (JVal.s (renderDT d 0 0 0))) := by
  refine ⟨?_, ?_, ?_, ?_, ?_, ?_⟩
  · intro d r v1 v2
    rw [locationNormalize_eq, locationNormalize_eq, setKey_absorb, setKey_absorb]
  · intro d cid cname r v1 v2
    rw [publisherNormalize_eq, publisherNormalize_eq, setKey_absorb, setKey_absorb]
  · intro d cid cname r v1 v2
    rw [demographicNormalize_eq, demographicNormalize_eq, setKey_absorb, setKey_absorb]
  · intro d r
    rw [locationNormalize_eq]
    exact getKey_setKey_self _ _ _
  · intro d cid cname r
    rw [publisherNormalize_eq]
    exact getKey_setKey_self _ _ _
  · intro d cid cname r
    rw [demographicNormalize_eq]
    exact getKey_setKey_self _ _ _

/-! ### C4: format of the emitted `date` field -/

/-- C4 (counterexample): the location stream (and likewise the publisher and
demographic streams) emits `date` as
`datetime.combine(window_start, time.min).isoformat()`, which is
`"2024-01-01T00:00:00"` — an ISO *datetime* string with a time component,
not a plain `YYYY-MM-DD` calendar-date string as the claim states. -/
theorem emitted_date_not_plain_cex :
    getKey "date" (locationNormalize ⟨2024, 1, 1⟩ [("impressions", JVal.i 5)])
      = some (JVal.s "2024-01-01T00:00:00")
    ∧ strptimeYMD "2024-01-01T00:00:00" = none
    ∧ "2024-01-01T00:00:00" ≠ "2024-01-01" := by
  refine ⟨by decide, by decide, by decide⟩

/-- C4 (amended): the creative stream emits `date` as a plain `YYYY-MM-DD`
string whenever the upstream `date` was a string (the only stream that
re-renders at calendar-date granularity), while the location, publisher and
demographic streams emit `date` as the window-start midnight ISO datetime
string `YYYY-MM-DDT00:00:00`, which carries a time component. -/
theorem emitted_date_forms_amended :
    (∀ (r r' : AList), jsonRec r = true → creativeNormalize r = some r' →
      ∀ v : String, getKey "date" r' = some (JVal.s v) → ∃ pd, v = renderYMD pd)
    ∧ (∀ (d : PyDate) (r : AList),
      getKey "date" (locationNormalize d r)
        = some (JVal.s (renderYMD d ++ "T00:00:00")))
    ∧ (∀ (d : PyDate) (cid cname : JVal) (r : AList),
      getKey "date" (publisherNormalize d cid cname r)
        = some (JVal.s (renderYMD d ++ "T00:00:00")))
    ∧ (∀ (d : PyDate) (cid cname : JVal) (r : AList),
      getKey "date" (demographicNormalize d cid cname r)
        = some (JVal.s (renderYMD d ++ "T00:00:00"))) := by
  refine ⟨?_, ?_, ?_, ?_⟩
  · intro r r' hj hn v hv
    cases hd : getKey "date" r with
    | none =>
      have h1 : creativeNormalize r = some r := by
        simp only [creativeNormalize, hd]
      rw [h1] at hn
      injection hn with hn
      subst hn
      rw [hd] at hv
      cases hv
    | some w =>
      have hw : jsonVal w = true := by
        have hm := getKey_mem "date" w r hd
        have := List.all_eq_true.mp hj _ hm
        simpa using this
      cases w with
      | s str =>
        rw [creativeNormalize_string_date r str hd] at hn
        cases hp : strptimeYMD str with
        | none =>
          rw [hp] at hn
          cases hn
        | some pd =>
          rw [hp] at hn
          injection hn with hn
          subst hn
          rw [getKey_setKey_self] at hv
          injection hv with hv
          cases hv
          exact ⟨pd, rfl⟩
      | i n =>
        have h1 : creativeNormalize r = some r := by
          simp only [creativeNormalize, hd]
        rw [h1] at hn
        injection hn with hn
        subst hn
        rw [hd] at hv
        cases hv
      | null =>
        have h1 : creativeNormalize r = some r := by
          simp only [creativeNormalize, hd]
        rw [h1] at hn
        injection hn with hn
        subst hn
        rw [hd] at hv
        cases hv
      | d pd => simp [jsonVal] at hw
      | dt pd hh mi ss => simp [jsonVal] at hw
  · intro d r
    rw [locationNormalize_eq, ← renderDT_midnight]
    exact getKey_setKey_self _ _ _
  · intro d cid cname r
    rw [publisherNormalize_eq, ← renderDT_midnight]
    exact getKey_setKey_self _ _ _
  · intro d cid cname r
    rw [demographicNormalize_eq, ← renderDT_midnight]
    exact getKey_setKey_self _ _ _

/-- Witness for the amended C4 on a concrete record. -/
theorem emitted_date_forms_amended_witness :
    jsonRec [("date", JVal.s "2024-01-05")] = true
    ∧ creativeNormalize [("date", JVal.s "2024-01-05")] = some [("date", JVal.s "2024-01-05")]
    ∧ getKey "date" [("date", JVal.s "2024-01-05")] = some (JVal.s "2024-01-05")
    ∧ ∃ pd, "2024-01-05" = renderYMD pd :=
  ⟨by decide, by decide, by decide,
    emitted_date_forms_amended.1 [("date", JVal.s "2024-01-05")] [("date", JVal.s "2024-01-05")]
      (by decide) (by decide) "2024-01-05" (by decide)⟩

/-! ### C5: the end-to-end creative-stats scenario with an ISO datetime -/

/-- C5 (code bug evidence): in the spec's end-to-end scenario (one account
id 10, one campaign id 100, window `[0, 6]` standing for
`2024-01-01..2024-01-07`, payload
`[{"date": "2024-01-01T00:00:00Z", "impressions": 5}]`) the claim expects a
record with `date = "2024-01-01"` and `impressions = 5`; instead the run
emits nothing and aborts with the `ValueError` from
`datetime.strptime(record["date"], "%Y-%m-%d")` (streams.py:219), which
cannot parse the ISO datetime form — even though the stream's own
`_parse_date` helper parses exactly that form to 2024-01-01. -/
theorem creative_iso_date_bug :
    creativeRun ⟨some "org", some 0, some 6, none, 7, 6⟩ none
      ⟨[[("id", JVal.i 10)]], fun _ => [[("id", JVal.i 100)]],
       fun cid s e => if cid = "100" ∧ s = 0 ∧ e = 6
         then [[("date", JVal.s "2024-01-01T00:00:00Z"), ("impressions", JVal.i 5)]] else []⟩
      = ([NetCall.accounts, NetCall.campaigns "10", NetCall.stats "100" 0 6], [],
         some RunErr.dateParse)
    ∧ creativeNormalize [("date", JVal.s "2024-01-01T00:00:00Z"), ("impressions", JVal.i 5)]
        = none
    ∧ parse_date "2024-01-01T00:00:00Z" = some ⟨2024, 1, 1⟩
    ∧ renderYMD ⟨2024, 1, 1⟩ = "2024-01-01" := by
  refine ⟨by decide, by decide, by decide, by decide⟩

/-! ### C6: the account allow-list filter -/

/-- C6 (counterexample): `account_ids = " "` is a non-empty configuration
string whose trimmed entry set is empty; the claim then requires every
account to be dropped (no id is a member of the empty set), but the code's
`if account_ids_config and ...` guard treats the empty set as "no filter"
and retains the account with id 1. -/
theorem account_filter_blank_cex :
    (" " : String) ≠ ""
    ∧ parseAccountIds (some " ") = []
    ∧ walkerAccounts (some " ") [[("id", JVal.i 1)]] = [[("id", JVal.i 1)]]
    ∧ ¬ ("1" ∈ parseAccountIds (some " ")) := by
  refine ⟨by decide, by decide, by decide, by decide⟩

lemma walkerAccounts_filter (cfg : Option String) (accounts : List AList) :
    walkerAccounts cfg accounts = accounts.filter (fun a =>
      match getKey "id" a with
      | some v => truthy v &&
          (parseAccountIds cfg = [] || decide (pyStr v ∈ parseAccountIds cfg))
      | none => false) := by
  induction accounts with
  | nil => rfl
  | cons a rest ih =>
    cases hd : getKey "id" a with
    | none => simp [walkerAccounts, hd, List.filter_cons, ih]
    | some v =>
      by_cases ht : truthy v = false
      · simp [walkerAccounts, hd, List.filter_cons, ht, ih]
      · have ht2 : truthy v = true := by
          revert ht
          cases truthy v <;> simp
        by_cases hf : parseAccountIds cfg = []
        · simp [walkerAccounts, hd, List.filter_cons, ht, ht2, hf, ih]
        · by_cases hm : pyStr v ∈ parseAccountIds cfg
          · simp [walkerAccounts, hd, List.filter_cons, ht, ht2, hf, hm, ih]
          · simp [walkerAccounts, hd, List.filter_cons, ht, ht2, hf, hm, ih]

/-- C6 (amended): the walker keeps, in input order, exactly the accounts
with a truthy `id` that pass the allow-list: when the trimmed entry set of
`account_ids` is non-empty only accounts whose string-cast id is a member
(case-sensitive exact match) survive, and when `account_ids` is absent,
empty, or consists only of whitespace/empty entries (entry set empty) the
filter is bypassed and every truthy-id account is retained. The spec's
example still holds: ids 1,2,3 with allow-list `"2, 3"` yield 2 and 3. -/
theorem account_filter_amended :
    (∀ (cfg : Option String) (accounts : List AList),
      walkerAccounts cfg accounts = accounts.filter (fun a =>
        match getKey "id" a with
        | some v => truthy v &&
            (parseAccountIds cfg = [] || decide (pyStr v ∈ parseAccountIds cfg))
        | none => false))
    ∧ parseAccountIds none = []
    ∧ parseAccountIds (some "2, 3") = ["2", "3"]
    ∧ walkerAccounts (some "2, 3")
        [[("id", JVal.i 1)], [("id", JVal.i 2)], [("id", JVal.i 3)]]
      = [[("id", JVal.i 2)], [("id", JVal.i 3)]] :=
  ⟨walkerAccounts_filter, by decide, by decide, by decide⟩

/-! ### C8: missing configuration and fail-fast behavior -/

/-- C8 (counterexample): with no bookmark and no configured `start_date`,
the creative stream still fetches the accounts listing and the first
account's campaigns before the `KeyError` on `self.config["start_date"]`
surfaces inside the per-campaign loop — the failure is not raised before
the first network call as the claim states. -/
theorem missing_start_after_fetch_cex :
    creativeRun ⟨some "org", none, none, none, 7, 100⟩ none
      ⟨[[("id", JVal.i 10)]], fun _ => [[("id", JVal.i 100)]], fun _ _ _ => []⟩
      = ([NetCall.accounts, NetCall.campaigns "10"], [], some RunErr.missingStart)
    ∧ ([NetCall.accounts, NetCall.campaigns "10"] : List NetCall) ≠ [] := by
  refine ⟨by decide, by decide⟩

/-- C8 (amended): a missing `organization_id` fails before any network call;
a missing `start_date` with no bookmark is only detected per campaign, after
the accounts fetch and that account's campaigns fetch have already been
issued — and a run whose hierarchy is empty (no accounts) finishes without
any error despite the missing `start_date`. -/
theorem missing_config_failfast_amended :
    (∀ (cfg : Config) (bm : Option Int) (env : Env),
      cfg.organizationId = none → creativeRun cfg bm env = ([], [], some RunErr.missingOrg))
    ∧ creativeRun ⟨some "org", none, none, none, 7, 100⟩ none
        ⟨[[("id", JVal.i 10)]], fun _ => [[("id", JVal.i 100)]], fun _ _ _ => []⟩
      = ([NetCall.accounts, NetCall.campaigns "10"], [], some RunErr.missingStart)
    ∧ creativeRun ⟨some "org", none, none, none, 7, 100⟩ none
        ⟨[], fun _ => [], fun _ _ _ => []⟩
      = ([NetCall.accounts], [], none) := by
  refine ⟨?_, by decide, by decide⟩
  intro cfg bm env h
  simp [creativeRun, h]

/-- Witness for the amended C8 at a concrete configuration with no
`organization_id`. -/
theorem missing_config_failfast_amended_witness :
    (⟨none, some 0, some 0, none, 7, 0⟩ : Config).organizationId = none
    ∧ creativeRun ⟨none, some 0, some 0, none, 7, 0⟩ none
        ⟨[], fun _ => [], fun _ _ _ => []⟩
      = ([], [], some RunErr.missingOrg) :=
  ⟨rfl, missing_config_failfast_amended.1 ⟨none, some 0, some 0, none, 7, 0⟩ none
    ⟨[], fun _ => [], fun _ _ _ => []⟩ rfl⟩

/-! ### C9: falsy ids are skipped like missing ids -/

/-- C9: an account or campaign whose `id` is present but falsy (0 or the
empty string) is skipped exactly as when the id is missing: the walker drops
it (so no campaigns are fetched for such an account, shown at run level by a
trace containing only the accounts fetch) and the campaign loop yields
nothing for such a campaign. -/
theorem falsy_id_skipped :
    (∀ (cfg : Option String) (a : AList) (rest : List AList) (v : JVal),
      getKey "id" a = some v → truthy v = false →
      walkerAccounts cfg (a :: rest) = walkerAccounts cfg rest)
    ∧ (∀ (cfg : Option String) (a : AList) (rest : List AList),
      getKey "id" a = none →
      walkerAccounts cfg (a :: rest) = walkerAccounts cfg rest)
    ∧ (∀ (c : AList) (rest : List AList) (v : JVal),
      getKey "id" c = some v → truthy v = false →
      campaignsKept (c :: rest) = campaignsKept rest)
    ∧ (∀ (c : AList) (rest : List AList),
      getKey "id" c = none →
      campaignsKept (c :: rest) = campaignsKept rest)
    ∧ creativeRun ⟨some "org", some 0, some 0, none, 7, 0⟩ none
        ⟨[[("id", JVal.i 0)], [("id", JVal.s "")]], fun _ => [[("id", JVal.i 100)]],
         fun _ _ _ => []⟩
      = ([NetCall.accounts], [], none) := by
  refine ⟨?_, ?_, ?_, ?_, by decide⟩
  · intro cfg a rest v hv ht
    simp [walkerAccounts, hv, ht]
  · intro cfg a rest hv
    simp [walkerAccounts, hv]
  · intro c rest v hv ht
    simp [campaignsKept, hv, ht]
  · intro c rest hv
    simp [campaignsKept, hv]

/-- Witness for C9 at concrete falsy-id records. -/
theorem falsy_id_skipped_witness :
    getKey "id" [("id", JVal.i 0)] = some (JVal.i 0)
    ∧ truthy (JVal.i 0) = false
    ∧ walkerAccounts none ([("id", JVal.i 0)] :: []) = walkerAccounts none []
    ∧ campaignsKept ([("id", JVal.s "")] :: []) = campaignsKept [] :=
  ⟨by decide, by decide,
    falsy_id_skipped.1 none [("id", JVal.i 0)] [] (JVal.i 0) (by decide) (by decide),
    falsy_id_skipped.2.2.1 [("id", JVal.s "")] [] (JVal.s "") (by decide) (by decide)⟩

end TapGroundTruth
